import Mathlib

/-!
Shallow embedding of `campus energy dashboard shresth/main.py`: the CSV
ingestion pipeline (`load_and_merge_data`), the aggregation functions
(`calculate_daily_totals`, `calculate_weekly_aggregates`,
`building_wise_summary`), the peak-reading computation of
`generate_summary_text`, the `Building`/`BuildingManager` object graph, and
the `__main__` control flow around the empty-dataset check.

Timestamps are modelled as integers (seconds since the epoch, so that
1970-01-01, a Thursday, is day 0); `pd.to_datetime(..., errors="coerce")`
is modelled by its outcome, `Option Int` (`none` is `NaT`).  Energy values
are exact rationals.  A cell of the `kwh` column as produced by
`pd.read_csv` is either NA (empty cell or NA token, pandas `NaN`), a
number, or a non-numeric string (pandas keeps such cells as `object`
values; they are *not* null).
-/

namespace CampusEnergy

/-- Value of a `kwh` cell after `pd.read_csv`: NA (`NaN`), a parsed number,
or a non-numeric string kept verbatim (pandas object dtype). -/
inductive CsvVal where
  | na : CsvVal
  | num : Rat → CsvVal
  | str : String → CsvVal
deriving DecidableEq, Repr

/-- One data row of a CSV file, after `pd.read_csv` and
`pd.to_datetime(df["timestamp"], errors="coerce")`: the timestamp cell is
`some t` when it parses and `none` (NaT) when it does not (or is NA), and
the `kwh` cell is a `CsvVal`.  Rows that are structurally malformed are
skipped by `on_bad_lines="skip"` and hence simply do not appear in `rows`. -/
structure RawRow where
  timestamp : Option Int
  kwh : CsvVal
deriving DecidableEq, Repr

/-- One `*.csv` file of the data directory, as seen by `load_and_merge_data`.
`stem` is `file.stem` (the base name without the `.csv` extension), so the
file name is `stem ++ ".csv"`.  `hasTimestamp` / `hasKwh` record whether the
required columns are present.  `readErr = some msg` models `pd.read_csv`
raising an exception with message `msg` (in which case the columns and rows
are never observed). -/
structure CsvFile where
  stem : String
  hasTimestamp : Bool
  hasKwh : Bool
  rows : List RawRow
  readErr : Option String
deriving DecidableEq, Repr

/-- The file's name as reported by `file.name` (glob pattern is `*.csv`). -/
def fileName (f : CsvFile) : String := f.stem ++ ".csv"

/-- One row of the merged DataFrame: parsed timestamp, `kwh` cell, and the
`building` tag (`file.stem`) added by `df["building"] = file.stem`. -/
structure Row where
  timestamp : Int
  kwh : CsvVal
  building : String
deriving DecidableEq, Repr

/-- The survival test of `df.dropna(subset=["timestamp", "kwh"])`: the row is
kept iff its timestamp parsed (is not NaT) and its `kwh` cell is not NA. -/
def keepRow (r : RawRow) : Bool :=
  r.timestamp.isSome && !(r.kwh == CsvVal.na)

/-- Processes one raw row of file `stem`: `dropna` drops it when the
timestamp is NaT or the `kwh` cell is NA, otherwise it survives tagged with
`building := stem`. -/
def tagRow (stem : String) (r : RawRow) : Option Row :=
  match r.timestamp with
  | none => none
  | some t => if r.kwh == CsvVal.na then none else some ⟨t, r.kwh, stem⟩

/-- The fragment a schema-valid file contributes to `frames`: its rows after
`dropna`, each tagged with the file's stem. -/
def fileFragment (f : CsvFile) : List Row :=
  f.rows.filterMap (tagRow f.stem)

/-- The per-file step of the loop in `load_and_merge_data`: either a frame
appended to `frames` (`some fragment`), or `none` together with the
diagnostic line appended to `logs` (missing required columns, or the
exception handler). -/
def loadFile (f : CsvFile) : Option (List Row) × List String :=
  match f.readErr with
  | some e => (none, [fileName f ++ ": Error - " ++ e ++ "\n"])
  | none =>
    if f.hasTimestamp && f.hasKwh then
      (some (fileFragment f), [])
    else
      (none, [fileName f ++ ": Missing required columns.\n"])

/-- The `frames` list accumulated by `load_and_merge_data`. -/
def framesOf (files : List CsvFile) : List (List Row) :=
  files.filterMap (fun f => (loadFile f).1)

/-- The `logs` list accumulated by `load_and_merge_data` (written to the log
file at the end). -/
def logsOf (files : List CsvFile) : List String :=
  (files.map (fun f => (loadFile f).2)).flatten

/-- Return value of `load_and_merge_data`: the merged DataFrame
(`pd.concat(frames, ignore_index=True) if frames else pd.DataFrame()`)
together with the diagnostic log lines. -/
def load_and_merge_data (files : List CsvFile) : List Row × List String :=
  (if framesOf files = [] then [] else (framesOf files).flatten, logsOf files)

/-- The campus-wide kwh total `df["kwh"].sum()` over merged rows; `none`
models the `TypeError` Python raises when a surviving non-numeric string
cell meets the numeric sum. -/
def sumKwhOpt : List Row → Option Rat
  | [] => some 0
  | e :: es =>
    match e.kwh, sumKwhOpt es with
    | CsvVal.num q, some s => some (q + s)
    | _, _ => none

/-- Observable outcome of the `__main__` block relevant to the empty-data
check: whether the fixed `"No valid CSV data found."` message was printed,
the process exit status, and whether any aggregation function was invoked. -/
structure MainOutcome where
  noDataMessage : Bool
  exitCode : Nat
  aggregatorInvoked : Bool
deriving DecidableEq, Repr

/-- Control flow of `__main__` around the `df.empty` check: an empty merged
DataFrame prints the fixed message and exits via `exit()` (Python exit
status 0) before any aggregation; otherwise the script goes on to call
`building_wise_summary` and the rest. -/
def runPipeline (files : List CsvFile) : MainOutcome :=
  let df := (load_and_merge_data files).1
  if df.isEmpty then
    { noDataMessage := true, exitCode := 0, aggregatorInvoked := false }
  else
    { noDataMessage := false, exitCode := 0, aggregatorInvoked := true }

/-- A validated data point of the time-sorted Dataset the aggregation
functions consume (`timestamp` parsed, `kwh` numeric, `building` tag). -/
structure Reading where
  timestamp : Int
  kwh : Rat
  building : String
deriving DecidableEq, Repr

/-- Calendar day of a timestamp (floor division by 86400 seconds), the
`.date()` bucket `resample("D")` groups by; the bucket's pandas label is the
midnight starting this day. -/
def dayIndex (t : Int) : Int := t.fdiv 86400

/-- Calendar week of a timestamp under pandas `resample("W")` (weekly bins
ending on Sunday): day 0 (1970-01-01) is a Thursday, so day `d` belongs to
the Monday-to-Sunday block numbered `(d + 3).fdiv 7`; the bucket's pandas
label is that block's Sunday, `7 * w + 3`, which is strictly monotone in the
week number `w` used here. -/
def weekIndex (t : Int) : Int := (dayIndex t + 3).fdiv 7

/-- Bucket indices of all readings of the dataset. -/
def idxList (idx : Int → Int) (ds : List Reading) : List Int :=
  ds.map (fun r => idx r.timestamp)

/-- Fold of `min` over a list starting from `x` (the `index.min()` of a
nonempty DatetimeIndex, at bucket granularity). -/
def foldMin [LinearOrder α] (x : α) (l : List α) : α := l.foldl min x

/-- Fold of `max` over a list starting from `x`. -/
def foldMax [LinearOrder α] (x : α) (l : List α) : α := l.foldl max x

/-- Minimum of a list, with a default for the (never used) empty case. -/
def listMinD [LinearOrder α] (dflt : α) : List α → α
  | [] => dflt
  | x :: xs => foldMin x xs

/-- Maximum of a list, with a default for the (never used) empty case. -/
def listMaxD [LinearOrder α] (dflt : α) : List α → α
  | [] => dflt
  | x :: xs => foldMax x xs

/-- Sum of `kwh` over the readings falling in bucket `d`: the value
`resample` gives bucket `d`, which is `0` when the bucket holds no rows
(pandas `sum` over an empty group with default `min_count=0`). -/
def bucketSum (idx : Int → Int) (d : Int) (ds : List Reading) : Rat :=
  ((ds.filter (fun r => idx r.timestamp == d)).map (fun r => r.kwh)).sum

/-- `df.set_index("timestamp").resample(rule)["kwh"].sum().reset_index()`:
for a nonempty frame, one output row for every bucket from the earliest
reading's bucket to the latest reading's bucket inclusive (pandas
materialises the full contiguous bin range, so empty buckets appear with
sum 0), in chronological order; an empty frame resamples to nothing. -/
def resampleSumKwh (idx : Int → Int) (ds : List Reading) : List (Int × Rat) :=
  match ds with
  | [] => []
  | _ :: _ =>
    let lo := listMinD 0 (idxList idx ds)
    let hi := listMaxD 0 (idxList idx ds)
    (List.range (hi - lo + 1).toNat).map
      (fun i : Nat => (lo + (i : Int), bucketSum idx (lo + (i : Int)) ds))

/-- `calculate_daily_totals`: resample by calendar day and sum kwh. -/
def calculate_daily_totals (ds : List Reading) : List (Int × Rat) :=
  resampleSumKwh dayIndex ds

/-- `calculate_weekly_aggregates`: resample by week (`"W"`) and sum kwh. -/
def calculate_weekly_aggregates (ds : List Reading) : List (Int × Rat) :=
  resampleSumKwh weekIndex ds

/-- Lexicographic strict order on strings as lists of characters (by code
point), the order Python/pandas sorts group keys with. -/
def strLtb : List Char → List Char → Bool
  | [], [] => false
  | [], _ :: _ => true
  | _ :: _, [] => false
  | x :: xs, y :: ys =>
    if x.toNat < y.toNat then true
    else if y.toNat < x.toNat then false
    else strLtb xs ys

/-- Strict order on strings (code-point lexicographic). -/
def strLt (s t : String) : Bool := strLtb s.data t.data

/-- Inserts a group key into a sorted duplicate-free key list, keeping it
sorted and duplicate-free. -/
def insertKey (x : String) : List String → List String
  | [] => [x]
  | y :: ys =>
    if x = y then y :: ys
    else if strLt x y then x :: y :: ys
    else y :: insertKey x ys

/-- The distinct group keys of `df.groupby("building")`, in the sorted order
pandas produces (`groupby` defaults to `sort=True`). -/
def sortedKeys : List String → List String
  | [] => []
  | b :: bs => insertKey b (sortedKeys bs)

/-- The kwh values of building `b`, in dataset order. -/
def kwhsOf (ds : List Reading) (b : String) : List Rat :=
  (ds.filter (fun r => r.building == b)).map (fun r => r.kwh)

/-- One row of the `building_wise_summary` result frame. -/
structure BSummary where
  building : String
  mean : Rat
  min : Rat
  max : Rat
  total : Rat
deriving DecidableEq, Repr

/-- `building_wise_summary`: group by `building` and aggregate the group's
kwh values with `mean`/`min`/`max`/`sum`; one row per distinct building, in
pandas' sorted key order. -/
def building_wise_summary (ds : List Reading) : List BSummary :=
  (sortedKeys (ds.map (fun r => r.building))).map (fun b =>
    let ks := kwhsOf ds b
    { building := b
      mean := ks.sum / (ks.length : Rat)
      min := listMinD 0 ks
      max := listMaxD 0 ks
      total := ks.sum })

/-- Scan underlying `Series.idxmax`: keeps the current best row and replaces
it only on a strictly larger kwh, so the first occurrence of the maximum
wins. -/
def peakAux (best : Reading) : List Reading → Reading
  | [] => best
  | r :: rs => if best.kwh < r.kwh then peakAux r rs else peakAux best rs

/-- `df.loc[df["kwh"].idxmax()]` of `generate_summary_text`: the first row
attaining the maximum kwh, or `none` on an empty frame (where pandas
`idxmax` raises). -/
def peakReading : List Reading → Option Reading
  | [] => none
  | r :: rs => some (peakAux r rs)

/-- A `MeterReading` object (timestamp and kwh) of the object graph. -/
structure MeterReading where
  timestamp : Int
  kwh : Rat
deriving DecidableEq, Repr

/-- `Building.total_consumption`: `sum(r.kwh for r in self.meter_readings)`. -/
def total_consumption (rs : List MeterReading) : Rat :=
  (rs.map (fun r => r.kwh)).sum

/-- `BuildingManager.add_reading` acting on the manager's `buildings` dict,
modelled as an insertion-ordered association list from building name to that
`Building`'s `meter_readings` list: `get_or_create_building` appends a fresh
empty building at the end on a miss, and the new reading is appended to the
building's reading list. -/
def addReadingA (m : List (String × List MeterReading)) (b : String)
    (t : Int) (k : Rat) : List (String × List MeterReading) :=
  match m with
  | [] => [(b, [⟨t, k⟩])]
  | (n, rs) :: ms =>
    if n = b then (n, rs ++ [⟨t, k⟩]) :: ms
    else (n, rs) :: addReadingA ms b t k

/-- The `BuildingManager` state after the `__main__` loop
`for row in df.itertuples(): manager.add_reading(row.building,
row.timestamp, row.kwh)` over the dataset. -/
def managerOf (ds : List Reading) : List (String × List MeterReading) :=
  ds.foldl (fun m r => addReadingA m r.building r.timestamp r.kwh) []

/-- The `meter_readings` list of building `b` in manager state `m` (empty
when the manager holds no such building; dict lookup on the association
list). -/
def readingsOf : List (String × List MeterReading) → String → List MeterReading
  | [], _ => []
  | (n, rs) :: ms, b => if n = b then rs else readingsOf ms b

/-- The object-graph per-building total: `total_consumption` of the
building's accumulated `meter_readings`. -/
def managerTotal (m : List (String × List MeterReading)) (b : String) : Rat :=
  total_consumption (readingsOf m b)

/-- The diagnostic line logged for a file with a missing required column. -/
def missingColsMsg (f : CsvFile) : String :=
  fileName f ++ ": Missing required columns.\n"

/-- Characterisation of a resampled-sum output table over dataset `ds` with
bucket map `idx`: every reading falls between the first and last bucket;
every output row is an in-range bucket carrying the bucket's kwh sum; every
in-range bucket (also one holding no reading, whose sum is then 0) appears;
and the bucket labels are strictly increasing (chronological, no
duplicates). -/
def ResampleOk (idx : Int → Int) (out : List (Int × Rat))
    (ds : List Reading) : Prop :=
  (∀ r ∈ ds, listMinD 0 (idxList idx ds) ≤ idx r.timestamp ∧
    idx r.timestamp ≤ listMaxD 0 (idxList idx ds)) ∧
  (∀ p ∈ out, listMinD 0 (idxList idx ds) ≤ p.1 ∧
    p.1 ≤ listMaxD 0 (idxList idx ds) ∧ p.2 = bucketSum idx p.1 ds) ∧
  (∀ d : Int, listMinD 0 (idxList idx ds) ≤ d →
    d ≤ listMaxD 0 (idxList idx ds) → (d, bucketSum idx d ds) ∈ out) ∧
  (out.map Prod.fst).Pairwise (· < ·)

/-- The strict order `sortedKeys` keeps its output pairwise in. -/
def SLt (a b : String) : Prop := strLt a b = true

/-- The conduct of a schema-valid, readable file's row-level cleaning: the
file is included (not skipped) with no diagnostic line; a row whose
timestamp failed to coerce or whose kwh cell is NA is dropped (erasing it
from the input leaves the fragment unchanged); surviving rows never carry an
NA kwh and are tagged with the stem; and every row with a parsed timestamp
and non-NA kwh — including a non-numeric string kwh — is retained. -/
def RowDropOk (f : CsvFile) : Prop :=
  (loadFile f).1 = some (fileFragment f) ∧
  (loadFile f).2 = [] ∧
  (∀ r ∈ f.rows, (r.timestamp = none ∨ r.kwh = CsvVal.na) →
    fileFragment { f with rows := f.rows.erase r } = fileFragment f) ∧
  (∀ e ∈ fileFragment f, e.kwh ≠ CsvVal.na ∧ e.building = f.stem) ∧
  (∀ r ∈ f.rows, ∀ t : Int, r.timestamp = some t → r.kwh ≠ CsvVal.na →
    (⟨t, r.kwh, f.stem⟩ : Row) ∈ fileFragment f)

/-- The conduct of a schema-valid, readable file around one row `r` whose
timestamp failed to parse: the file produces no diagnostic line, erasing `r`
leaves the fragment unchanged (the row is absent from the dataset), the file
itself is still included, and every surviving entry originates in some row
whose timestamp did parse. -/
def SilentDropOk (f : CsvFile) (r : RawRow) : Prop :=
  (loadFile f).2 = [] ∧
  fileFragment { f with rows := f.rows.erase r } = fileFragment f ∧
  (loadFile f).1 = some (fileFragment f) ∧
  ∀ e ∈ fileFragment f, ∃ q ∈ f.rows, q.timestamp = some e.timestamp ∧
    q.kwh = e.kwh

/-- The observable outcome required of a run over `files` in which file `f`
misses a required column: no merged row carries `f`'s building tag, and the
diagnostic log holds the line naming `f` exactly once. -/
def MissingColumnsOk (files : List CsvFile) (f : CsvFile) : Prop :=
  (∀ e ∈ (load_and_merge_data files).1, e.building ≠ f.stem) ∧
  ((load_and_merge_data files).2).count (missingColsMsg f) = 1

/-- The observable outcome of a run with no usable file: the merged result
is the explicit empty dataset, the fixed no-valid-data message is printed,
the exit status is 0, and no aggregation function runs. -/
def EmptyDataOk (files : List CsvFile) : Prop :=
  (load_and_merge_data files).1 = [] ∧
  runPipeline files =
    { noDataMessage := true, exitCode := 0, aggregatorInvoked := false }

/-- Stable-argmax property of the peak reading of a dataset: it is a reading
of the dataset whose kwh bounds every reading's kwh, and every reading
strictly before it has strictly smaller kwh (first occurrence wins on
ties). -/
def StableArgmax (ds : List Reading) : Prop :=
  ∃ p, peakReading ds = some p ∧ (∀ r ∈ ds, r.kwh ≤ p.kwh) ∧
    ∃ pre post, ds = pre ++ p :: post ∧ ∀ r ∈ pre, r.kwh < p.kwh

/-- Grouping property of `building_wise_summary`: every observed building
has exactly one summary row, that row carries the building's kwh mean
(sum over count), an attained lower bound (min), an attained upper bound
(max), and sum; and every summary row belongs to an observed building. -/
def SummaryOk (ds : List Reading) : Prop :=
  (∀ b ∈ ds.map (fun r => r.building),
    (building_wise_summary ds).countP (fun row => row.building == b) = 1 ∧
    ∃ row ∈ building_wise_summary ds, row.building = b ∧
      row.mean = (kwhsOf ds b).sum / ((kwhsOf ds b).length : Rat) ∧
      row.min ∈ kwhsOf ds b ∧ (∀ k ∈ kwhsOf ds b, row.min ≤ k) ∧
      row.max ∈ kwhsOf ds b ∧ (∀ k ∈ kwhsOf ds b, k ≤ row.max) ∧
      row.total = (kwhsOf ds b).sum) ∧
  (∀ row ∈ building_wise_summary ds, row.building ∈
    ds.map (fun r => r.building))

/-- Dataset with readings on day 0 and day 2 and nothing on day 1. -/
def exGapDs : List Reading := [⟨0, 1, "A"⟩, ⟨172800, 2, "A"⟩]

/-- Dataset with readings in week 0 and week 2 and nothing in week 1
(1296000 s = day 15, a Friday two weeks after day 0's Thursday). -/
def exGapDsW : List Reading := [⟨0, 1, "A"⟩, ⟨1296000, 2, "A"⟩]

/-- Schema-valid file whose single row has a parsed timestamp and a
non-numeric string in the kwh cell. -/
def exFileC2 : CsvFile :=
  ⟨"meters", true, true, [⟨some 5, CsvVal.str "abc"⟩], none⟩

/-- Schema-valid file with a NaT-timestamp row, an NA-kwh row and a fully
valid row. -/
def wFileC2 : CsvFile :=
  ⟨"lib", true, true,
    [⟨none, CsvVal.num 1⟩, ⟨some 3, CsvVal.na⟩, ⟨some 4, CsvVal.num 2⟩],
    none⟩

/-- A well-formed file. -/
def wFileC3ok : CsvFile := ⟨"gym", true, true, [⟨some 1, CsvVal.num 2⟩], none⟩

/-- A file whose kwh column is missing. -/
def wFileC3bad : CsvFile :=
  ⟨"pool", true, false, [⟨some 1, CsvVal.num 3⟩], none⟩

/-- A file missing both required columns. -/
def wFileC4 : CsvFile := ⟨"empty", false, false, [], none⟩

/-- The tied-maximum dataset of the spec's peak example. -/
def exPeakDs : List Reading := [⟨1, 5, "A"⟩, ⟨2, 9, "A"⟩, ⟨3, 9, "A"⟩]

/-- The two-building dataset of the spec's summary example:
A = {10, 20}, B = {5}. -/
def exABDs : List Reading := [⟨0, 10, "A"⟩, ⟨1, 20, "A"⟩, ⟨2, 5, "B"⟩]

/-- Schema-valid file whose single row holds kwh exactly 0. -/
def wFileC7 : CsvFile := ⟨"hall", true, true, [⟨some 9, CsvVal.num 0⟩], none⟩

/-- Schema-valid file with one unparseable-timestamp row and one valid
row. -/
def wFileC8 : CsvFile :=
  ⟨"dorm", true, true, [⟨none, CsvVal.num 4⟩, ⟨some 2, CsvVal.num 6⟩], none⟩

/-- Two-building dataset for cross-checking the object graph. -/
def exDsC9 : List Reading := [⟨0, 3, "labs"⟩, ⟨1, 4, "labs"⟩]

/-- First well-formed single-row file of the merge round-trip example. -/
def wFileC10a : CsvFile := ⟨"ca", true, true, [⟨some 1, CsvVal.num 3⟩], none⟩

/-- Second well-formed single-row file of the merge round-trip example. -/
def wFileC10b : CsvFile := ⟨"cb", true, true, [⟨some 2, CsvVal.num 4⟩], none⟩

/-! Helper lemmas about the loader. -/

theorem string_data_inj {s t : String} (h : s.data = t.data) : s = t := by
  cases s
  cases t
  exact congrArg String.mk h

theorem string_append_cancel {a b c : String} (h : a ++ c = b ++ c) :
    a = b := by
  apply string_data_inj
  have hd : a.data ++ c.data = b.data ++ c.data := by
    rw [← String.data_append, ← String.data_append, h]
  exact List.append_cancel_right hd

theorem fileName_inj {f g : CsvFile} (h : fileName f = fileName g) :
    f.stem = g.stem :=
  string_append_cancel h

theorem missingColsMsg_inj {f g : CsvFile}
    (h : missingColsMsg f = missingColsMsg g) : f.stem = g.stem :=
  fileName_inj (string_append_cancel h)

theorem tagRow_eq_some {stem : String} {r : RawRow} {e : Row} :
    tagRow stem r = some e ↔
      r.timestamp = some e.timestamp ∧ r.kwh = e.kwh ∧ e.building = stem ∧
        r.kwh ≠ CsvVal.na := by
  cases r with
  | mk ts k =>
    cases e with
    | mk t' k' b' =>
      cases ts with
      | none => simp [tagRow]
      | some t =>
        by_cases hk : k = CsvVal.na
        · subst hk
          simp [tagRow]
        · simp only [tagRow, beq_iff_eq, if_neg hk, Option.some_inj,
            Row.mk.injEq, Option.some.injEq]
          constructor
          · rintro ⟨h1, h2, h3⟩
            exact ⟨h1, h2.symm ▸ rfl, h3.symm, hk⟩
          · rintro ⟨h1, h2, h3, _⟩
            exact ⟨h1, h2, h3.symm⟩

theorem tagRow_eq_none {stem : String} {r : RawRow}
    (h : r.timestamp = none ∨ r.kwh = CsvVal.na) :
    tagRow stem r = none := by
  rcases h with h | h
  · simp [tagRow, h]
  · cases hts : r.timestamp with
    | none => simp [tagRow, hts]
    | some t => simp [tagRow, hts, h]

theorem mem_fileFragment {f : CsvFile} {e : Row} :
    e ∈ fileFragment f ↔ ∃ r ∈ f.rows, tagRow f.stem r = some e := by
  simp [fileFragment, List.mem_filterMap]

theorem fileFragment_building {f : CsvFile} {e : Row}
    (he : e ∈ fileFragment f) : e.building = f.stem := by
  rcases mem_fileFragment.mp he with ⟨r, _, hr⟩
  exact (tagRow_eq_some.mp hr).2.2.1

theorem mem_fileFragment_of_valid {f : CsvFile} {r : RawRow}
    (hr : r ∈ f.rows) {t : Int} (hts : r.timestamp = some t)
    (hk : r.kwh ≠ CsvVal.na) :
    (⟨t, r.kwh, f.stem⟩ : Row) ∈ fileFragment f :=
  mem_fileFragment.mpr ⟨r, hr, tagRow_eq_some.mpr ⟨hts, rfl, rfl, hk⟩⟩

theorem filterMap_erase_none {α β : Type} [DecidableEq α]
    {g : α → Option β} {a : α} (ha : g a = none) :
    ∀ l : List α, (l.erase a).filterMap g = l.filterMap g := by
  intro l
  induction l with
  | nil => simp
  | cons x xs ih =>
    rw [List.erase_cons]
    by_cases hx : x = a
    · subst hx
      simp [List.filterMap_cons, ha]
    · have hbe : (x == a) = false := beq_false_of_ne hx
      rw [hbe]
      simp only [Bool.false_eq_true, if_false, List.filterMap_cons]
      cases g x <;> simp [ih]

theorem loadFile_some {g : CsvFile} {frag : List Row}
    (h : (loadFile g).1 = some frag) :
    frag = fileFragment g ∧ g.hasTimestamp = true ∧ g.hasKwh = true ∧
      g.readErr = none := by
  cases hre : g.readErr with
  | some e => rw [loadFile, hre] at h; cases h
  | none =>
    rw [loadFile, hre] at h
    by_cases hc : g.hasTimestamp && g.hasKwh
    · rw [if_pos hc] at h
      rcases Bool.and_eq_true_iff.mp hc with ⟨h1, h2⟩
      exact ⟨(Option.some_inj.mp h).symm, h1, h2, rfl⟩
    · rw [if_neg hc] at h
      cases h

theorem loadFile_of_valid {f : CsvFile} (hre : f.readErr = none)
    (hts : f.hasTimestamp = true) (hk : f.hasKwh = true) :
    loadFile f = (some (fileFragment f), []) := by
  rw [loadFile, hre, hts, hk]
  simp

theorem loadFile_missing_cols {f : CsvFile} (hre : f.readErr = none)
    (hmiss : ¬(f.hasTimestamp = true ∧ f.hasKwh = true)) :
    loadFile f = (none, [missingColsMsg f]) := by
  rw [loadFile, hre, if_neg (by rw [Bool.and_eq_true]; exact hmiss)]
  rfl

theorem load_merge_fst (files : List CsvFile) :
    (load_and_merge_data files).1 = (framesOf files).flatten := by
  by_cases h : framesOf files = [] <;> simp [load_and_merge_data, h]

theorem mem_merged {files : List CsvFile} {f : CsvFile} (hf : f ∈ files)
    {frag : List Row} (hl : (loadFile f).1 = some frag) {e : Row}
    (he : e ∈ frag) : e ∈ (load_and_merge_data files).1 := by
  rw [load_merge_fst]
  exact List.mem_flatten.mpr ⟨frag, List.mem_filterMap.mpr ⟨f, hf, hl⟩, he⟩

theorem mem_merged_elim {files : List CsvFile} {e : Row}
    (he : e ∈ (load_and_merge_data files).1) :
    ∃ g ∈ files, ∃ frag, (loadFile g).1 = some frag ∧ e ∈ frag := by
  rw [load_merge_fst] at he
  rcases List.mem_flatten.mp he with ⟨frag, hfr, hefr⟩
  rcases List.mem_filterMap.mp hfr with ⟨g, hg, hgl⟩
  exact ⟨g, hg, frag, hgl, hefr⟩

theorem count_logsOf (files : List CsvFile) (c : String) :
    (logsOf files).count c =
      (files.map (fun g => ((loadFile g).2).count c)).sum := by
  rw [logsOf, List.count_flatten, List.map_map]
  rfl

theorem loadFile_logs_of_noerr {g : CsvFile} (hre : g.readErr = none) :
    (loadFile g).2 = [] ∨ ((loadFile g).2 = [missingColsMsg g] ∧
      ¬(g.hasTimestamp = true ∧ g.hasKwh = true)) := by
  rw [loadFile, hre]
  by_cases hc : g.hasTimestamp && g.hasKwh
  · left
    rw [if_pos hc]
  · right
    rw [if_neg hc]
    refine ⟨rfl, fun h => hc ?_⟩
    rw [h.1, h.2]
    rfl

theorem sum_map_eq_one {α : Type} [DecidableEq α] (φ : α → Nat) (f : α) :
    ∀ files : List α, f ∈ files → φ f = 1 →
      (∀ g ∈ files, g ≠ f → φ g = 0) → files.count f = 1 →
      (files.map φ).sum = 1 := by
  intro files
  induction files with
  | nil => intro hf; cases hf
  | cons x xs ih =>
    intro hf hone hzero hcount
    by_cases hx : x = f
    · subst hx
      have hxs0 : xs.count x = 0 := by
        rw [List.count_cons_self] at hcount
        omega
      have hzs : ∀ g ∈ xs, φ g = 0 := by
        intro g hg
        by_cases hgx : g = x
        · subst hgx
          exact absurd (List.count_pos_iff.mpr hg) (by omega)
        · exact hzero g (List.mem_cons_of_mem _ hg) hgx
      have : (xs.map φ).sum = 0 :=
        List.sum_eq_zero (by
          intro y hy
          rcases List.mem_map.mp hy with ⟨g, hg, hgy⟩
          rw [← hgy]
          exact hzs g hg)
      simp [hone, this]
    · have hfx : f ∈ xs := by
        rcases List.mem_cons.mp hf with h | h
        · exact absurd h.symm hx
        · exact h
      have hcx : xs.count f = 1 := by
        rw [List.count_cons_of_ne (fun h => hx h.symm)] at hcount
        exact hcount
      have h0 : φ x = 0 := hzero x (List.mem_cons_self _ _) hx
      have := ih hfx hone (fun g hg => hzero g (List.mem_cons_of_mem _ hg))
        hcx
      simp [h0, this]

/-! Helper lemmas about folded minima and maxima. -/

theorem foldMin_le {α : Type} [LinearOrder α] :
    ∀ (l : List α) (x : α),
      foldMin x l ≤ x ∧ ∀ y ∈ l, foldMin x l ≤ y := by
  intro l
  induction l with
  | nil => intro x; simp [foldMin]
  | cons z zs ih =>
    intro x
    have h := ih (min x z)
    constructor
    · exact le_trans h.1 (min_le_left x z)
    · intro y hy
      rcases List.mem_cons.mp hy with h' | h'
      · exact h'.symm ▸ le_trans h.1 (min_le_right x z)
      · exact h.2 y h'

theorem le_foldMax {α : Type} [LinearOrder α] :
    ∀ (l : List α) (x : α),
      x ≤ foldMax x l ∧ ∀ y ∈ l, y ≤ foldMax x l := by
  intro l
  induction l with
  | nil => intro x; simp [foldMax]
  | cons z zs ih =>
    intro x
    have h := ih (max x z)
    constructor
    · exact le_trans (le_max_left x z) h.1
    · intro y hy
      rcases List.mem_cons.mp hy with h' | h'
      · exact h'.symm ▸ le_trans (le_max_right x z) h.1
      · exact h.2 y h'

theorem foldMin_mem {α : Type} [LinearOrder α] :
    ∀ (l : List α) (x : α), foldMin x l = x ∨ foldMin x l ∈ l := by
  intro l
  induction l with
  | nil => intro x; left; rfl
  | cons z zs ih =>
    intro x
    rcases ih (min x z) with h | h
    · rcases min_cases x z with ⟨hm, _⟩ | ⟨hm, _⟩
      · left
        rw [show foldMin x (z :: zs) = foldMin (min x z) zs from rfl, h, hm]
      · right
        rw [show foldMin x (z :: zs) = foldMin (min x z) zs from rfl, h, hm]
        exact List.mem_cons_self _ _
    · right
      exact List.mem_cons_of_mem _ h

theorem foldMax_mem {α : Type} [LinearOrder α] :
    ∀ (l : List α) (x : α), foldMax x l = x ∨ foldMax x l ∈ l := by
  intro l
  induction l with
  | nil => intro x; left; rfl
  | cons z zs ih =>
    intro x
    rcases ih (max x z) with h | h
    · rcases max_cases x z with ⟨hm, _⟩ | ⟨hm, _⟩
      · left
        rw [show foldMax x (z :: zs) = foldMax (max x z) zs from rfl, h, hm]
      · right
        rw [show foldMax x (z :: zs) = foldMax (max x z) zs from rfl, h, hm]
        exact List.mem_cons_self _ _
    · right
      exact List.mem_cons_of_mem _ h

theorem listMinD_le {α : Type} [LinearOrder α] {dflt : α} {l : List α}
    (hl : l ≠ []) : ∀ y ∈ l, listMinD dflt l ≤ y := by
  cases l with
  | nil => cases hl rfl
  | cons x xs =>
    intro y hy
    rcases List.mem_cons.mp hy with h | h
    · exact h.symm ▸ (foldMin_le xs x).1
    · exact (foldMin_le xs x).2 y h

theorem le_listMaxD {α : Type} [LinearOrder α] {dflt : α} {l : List α}
    (hl : l ≠ []) : ∀ y ∈ l, y ≤ listMaxD dflt l := by
  cases l with
  | nil => cases hl rfl
  | cons x xs =>
    intro y hy
    rcases List.mem_cons.mp hy with h | h
    · exact h.symm ▸ (le_foldMax xs x).1
    · exact (le_foldMax xs x).2 y h

theorem listMinD_mem {α : Type} [LinearOrder α] {dflt : α} {l : List α}
    (hl : l ≠ []) : listMinD dflt l ∈ l := by
  cases l with
  | nil => cases hl rfl
  | cons x xs =>
    rcases foldMin_mem xs x with h | h
    · rw [show listMinD dflt (x :: xs) = foldMin x xs from rfl, h]
      exact List.mem_cons_self _ _
    · exact List.mem_cons_of_mem _ h

theorem listMaxD_mem {α : Type} [LinearOrder α] {dflt : α} {l : List α}
    (hl : l ≠ []) : listMaxD dflt l ∈ l := by
  cases l with
  | nil => cases hl rfl
  | cons x xs =>
    rcases foldMax_mem xs x with h | h
    · rw [show listMaxD dflt (x :: xs) = foldMax x xs from rfl, h]
      exact List.mem_cons_self _ _
    · exact List.mem_cons_of_mem _ h

/-! Helper lemmas about the sorted group keys. -/

theorem strLtb_irrefl : ∀ a : List Char, strLtb a a = false := by
  intro a
  induction a with
  | nil => rfl
  | cons x xs ih => simp [strLtb, ih]

theorem strLtb_trans : ∀ {a b c : List Char}, strLtb a b = true →
    strLtb b c = true → strLtb a c = true := by
  intro a
  induction a with
  | nil =>
    intro b c hab hbc
    cases b with
    | nil => exact hbc
    | cons y ys =>
      cases c with
      | nil => cases hbc
      | cons z zs => rfl
  | cons x xs ih =>
    intro b c hab hbc
    cases b with
    | nil => cases hab
    | cons y ys =>
      cases c with
      | nil => cases hbc
      | cons z zs =>
        simp only [strLtb] at hab hbc ⊢
        by_cases hxy : x.toNat < y.toNat
        · by_cases hyz : y.toNat < z.toNat
          · rw [if_pos (by omega)]
          · rw [if_neg hyz] at hbc
            by_cases hzy : z.toNat < y.toNat
            · rw [if_pos hzy] at hbc; cases hbc
            · have : y.toNat = z.toNat := by omega
              rw [if_pos (by omega)]
        · rw [if_neg hxy] at hab
          by_cases hyx : y.toNat < x.toNat
          · rw [if_pos hyx] at hab; cases hab
          · rw [if_neg hyx] at hab
            have hxy' : x.toNat = y.toNat := by omega
            by_cases hyz : y.toNat < z.toNat
            · rw [if_pos (by omega)]
            · rw [if_neg hyz] at hbc
              by_cases hzy : z.toNat < y.toNat
              · rw [if_pos hzy] at hbc; cases hbc
              · rw [if_neg hzy] at hbc
                rw [if_neg (by omega), if_neg (by omega)]
                exact ih hab hbc

theorem strLtb_asymm {a b : List Char} (h : strLtb a b = true) :
    strLtb b a = false := by
  by_cases h' : strLtb b a = true
  · have := strLtb_trans h h'
    rw [strLtb_irrefl] at this
    cases this
  · exact Bool.not_eq_true _ ▸ Bool.of_not_eq_true h'

theorem strLtb_connex : ∀ {a b : List Char}, a ≠ b →
    strLtb a b = true ∨ strLtb b a = true := by
  intro a
  induction a with
  | nil =>
    intro b hab
    cases b with
    | nil => exact absurd rfl hab
    | cons y ys => left; rfl
  | cons x xs ih =>
    intro b hab
    cases b with
    | nil => right; rfl
    | cons y ys =>
      by_cases hxy : x.toNat < y.toNat
      · left
        simp [strLtb, hxy]
      · by_cases hyx : y.toNat < x.toNat
        · right
          simp [strLtb, hyx]
        · have hxn : x.toNat = y.toNat := by omega
          have hx : x = y := Char.ext (UInt32.ext hxn)
          subst hx
          have hne : xs ≠ ys := by
            intro h
            exact hab (by rw [h])
          rcases ih hne with h | h
          · left
            simpa [strLtb] using h
          · right
            simpa [strLtb] using h

theorem sLt_trans {a b c : String} (h1 : SLt a b) (h2 : SLt b c) :
    SLt a c := strLtb_trans h1 h2

theorem sLt_ne {a b : String} (h : SLt a b) : a ≠ b := by
  intro he
  subst he
  have := strLtb_irrefl a.data
  rw [SLt, strLt] at h
  rw [h] at this
  cases this

theorem sLt_connex {a b : String} (h : a ≠ b) : SLt a b ∨ SLt b a := by
  have hd : a.data ≠ b.data := fun hd => h (string_data_inj hd)
  exact strLtb_connex hd

theorem mem_insertKey {x a : String} :
    ∀ l : List String, a ∈ insertKey x l ↔ a = x ∨ a ∈ l := by
  intro l
  induction l with
  | nil => simp [insertKey]
  | cons y ys ih =>
    by_cases hxy : x = y
    · subst hxy
      simp only [insertKey, if_pos rfl]
      constructor
      · intro h; right; exact h
      · rintro (h | h)
        · exact h ▸ List.mem_cons_self _ _
        · exact h
    · rw [insertKey, if_neg hxy]
      by_cases hlt : strLt x y
      · rw [if_pos hlt]
        simp [List.mem_cons]
      · rw [if_neg hlt]
        simp only [List.mem_cons, ih]
        tauto

theorem pairwise_insertKey {x : String} :
    ∀ {l : List String}, l.Pairwise SLt → (insertKey x l).Pairwise SLt := by
  intro l
  induction l with
  | nil =>
    intro _
    simp [insertKey]
  | cons y ys ih =>
    intro hp
    rcases List.pairwise_cons.mp hp with ⟨hy, hys⟩
    by_cases hxy : x = y
    · subst hxy
      rw [insertKey, if_pos rfl]
      exact hp
    · rw [insertKey, if_neg hxy]
      by_cases hlt : strLt x y
      · rw [if_pos hlt]
        refine List.pairwise_cons.mpr ⟨?_, hp⟩
        intro z hz
        rcases List.mem_cons.mp hz with h | h
        · exact h ▸ hlt
        · exact sLt_trans hlt (hy z h)
      · rw [if_neg hlt]
        refine List.pairwise_cons.mpr ⟨?_, ih hys⟩
        intro z hz
        rcases (mem_insertKey _).mp hz with h | h
        · subst h
          rcases sLt_connex hxy with h' | h'
          · exact absurd h' hlt
          · exact h'
        · exact hy z h

theorem pairwise_sortedKeys :
    ∀ l : List String, (sortedKeys l).Pairwise SLt := by
  intro l
  induction l with
  | nil => simp [sortedKeys]
  | cons b bs ih => exact pairwise_insertKey ih

theorem nodup_sortedKeys (l : List String) : (sortedKeys l).Nodup :=
  (pairwise_sortedKeys l).imp (fun h => sLt_ne h)

theorem mem_sortedKeys {a : String} :
    ∀ l : List String, a ∈ sortedKeys l ↔ a ∈ l := by
  intro l
  induction l with
  | nil => simp [sortedKeys]
  | cons b bs ih =>
    rw [sortedKeys, mem_insertKey, ih, List.mem_cons]

/-! Helper lemmas about resampling. -/

theorem resampleSumKwh_ok (idx : Int → Int) (ds : List Reading)
    (h : ds ≠ []) : ResampleOk idx (resampleSumKwh idx ds) ds := by
  cases ds with
  | nil => cases h rfl
  | cons r0 rs =>
    have hidx : idxList idx (r0 :: rs) ≠ [] := by
      simp [idxList]
    have hmem : ∀ z ∈ r0 :: rs, idx z.timestamp ∈ idxList idx (r0 :: rs) := by
      intro z hz
      exact List.mem_map.mpr ⟨z, hz, rfl⟩
    have hbound : ∀ z ∈ r0 :: rs,
        listMinD 0 (idxList idx (r0 :: rs)) ≤ idx z.timestamp ∧
        idx z.timestamp ≤ listMaxD 0 (idxList idx (r0 :: rs)) := by
      intro z hz
      exact ⟨listMinD_le hidx _ (hmem z hz), le_listMaxD hidx _ (hmem z hz)⟩
    have hlohi : listMinD 0 (idxList idx (r0 :: rs)) ≤
        listMaxD 0 (idxList idx (r0 :: rs)) :=
      le_trans (hbound r0 (List.mem_cons_self _ _)).1
        (hbound r0 (List.mem_cons_self _ _)).2
    have hout : resampleSumKwh idx (r0 :: rs) =
        (List.range (listMaxD 0 (idxList idx (r0 :: rs)) -
          listMinD 0 (idxList idx (r0 :: rs)) + 1).toNat).map
          (fun i : Nat => (listMinD 0 (idxList idx (r0 :: rs)) + (i : Int),
            bucketSum idx (listMinD 0 (idxList idx (r0 :: rs)) + (i : Int))
              (r0 :: rs))) := rfl
    set lo := listMinD 0 (idxList idx (r0 :: rs)) with hlo
    set hi := listMaxD 0 (idxList idx (r0 :: rs)) with hhi
    have htn : ((hi - lo + 1).toNat : Int) = hi - lo + 1 :=
      Int.toNat_of_nonneg (by omega)
    refine ⟨hbound, ?_, ?_, ?_⟩
    · intro p hp
      rw [hout] at hp
      rcases List.mem_map.mp hp with ⟨i, hi_mem, hpi⟩
      have hilt : i < (hi - lo + 1).toNat := List.mem_range.mp hi_mem
      have hilt' : (i : Int) < hi - lo + 1 := by omega
      rw [← hpi]
      exact ⟨by omega, by omega, rfl⟩
    · intro d hdlo hdhi
      rw [hout]
      refine List.mem_map.mpr ⟨(d - lo).toNat, ?_, ?_⟩
      · exact List.mem_range.mpr (by omega)
      · have : ((d - lo).toNat : Int) = d - lo := Int.toNat_of_nonneg (by omega)
        rw [show lo + ((d - lo).toNat : Int) = d from by omega]
    · rw [hout, List.map_map]
      have : (Prod.fst ∘ fun i : Nat =>
          (lo + (i : Int), bucketSum idx (lo + (i : Int)) (r0 :: rs)))
          = fun i : Nat => lo + (i : Int) := rfl
      rw [this, List.pairwise_map]
      exact (List.pairwise_lt_range _).imp (fun hab => by omega)

/-! Helper lemmas about the peak reading. -/

theorem peakAux_spec :
    ∀ (l : List Reading) (best : Reading),
      (∀ r ∈ l, r.kwh ≤ (peakAux best l).kwh) ∧
      best.kwh ≤ (peakAux best l).kwh ∧
      (peakAux best l = best ∨
        ∃ pre post, l = pre ++ peakAux best l :: post ∧
          best.kwh < (peakAux best l).kwh ∧
          ∀ r ∈ pre, r.kwh < (peakAux best l).kwh) := by
  intro l
  induction l with
  | nil =>
    intro best
    exact ⟨by simp, le_refl _, Or.inl rfl⟩
  | cons r rs ih =>
    intro best
    by_cases hlt : best.kwh < r.kwh
    · have hres : peakAux best (r :: rs) = peakAux r rs := by
        simp [peakAux, hlt]
      rw [hres]
      obtain ⟨h1, h2, h3⟩ := ih r
      set p := peakAux r rs with hp
      refine ⟨?_, le_trans (le_of_lt hlt) h2, ?_⟩
      · intro z hz
        rcases List.mem_cons.mp hz with h' | h'
        · rw [h']
          exact h2
        · exact h1 z h'
      · right
        rcases h3 with he | ⟨pre, post, hsplit, hbl, hpre⟩
        · refine ⟨[], rs, ?_, lt_of_lt_of_le hlt h2, by simp⟩
          rw [he, List.nil_append]
        · refine ⟨r :: pre, post, ?_, lt_of_lt_of_le hlt h2, ?_⟩
          · rw [List.cons_append, ← hsplit]
          · intro z hz
            rcases List.mem_cons.mp hz with h' | h'
            · rw [h']
              exact hbl
            · exact hpre z h'
    · have hres : peakAux best (r :: rs) = peakAux best rs := by
        simp [peakAux, hlt]
      rw [hres]
      obtain ⟨h1, h2, h3⟩ := ih best
      set p := peakAux best rs with hp
      refine ⟨?_, h2, ?_⟩
      · intro z hz
        rcases List.mem_cons.mp hz with h' | h'
        · rw [h']
          exact le_trans (le_of_not_lt hlt) h2
        · exact h1 z h'
      · rcases h3 with he | ⟨pre, post, hsplit, hbl, hpre⟩
        · left
          exact he
        · right
          refine ⟨r :: pre, post, ?_, hbl, ?_⟩
          · rw [List.cons_append, ← hsplit]
          · intro z hz
            rcases List.mem_cons.mp hz with h' | h'
            · rw [h']
              exact lt_of_le_of_lt (le_of_not_lt hlt) hbl
            · exact hpre z h'

/-! Helper lemmas about the object graph. -/

theorem readingsOf_addReadingA (b b' : String) (t : Int) (k : Rat) :
    ∀ m : List (String × List MeterReading),
      readingsOf (addReadingA m b t k) b' =
        if b' = b then readingsOf m b' ++ [⟨t, k⟩] else readingsOf m b' := by
  intro m
  induction m with
  | nil =>
    by_cases h : b' = b
    · subst h
      simp [addReadingA, readingsOf]
    · rw [show addReadingA [] b t k = [(b, [⟨t, k⟩])] from rfl]
      rw [show readingsOf [(b, [(⟨t, k⟩ : MeterReading)])] b'
          = if b = b' then [(⟨t, k⟩ : MeterReading)] else readingsOf [] b'
          from rfl]
      rw [if_neg (fun hh : b = b' => h hh.symm), if_neg h]
  | cons q ms ih =>
    obtain ⟨n, rs⟩ := q
    by_cases hn : n = b
    · subst hn
      rw [show addReadingA ((n, rs) :: ms) n t k
          = (n, rs ++ [⟨t, k⟩]) :: ms from by simp [addReadingA]]
      by_cases h : b' = n
      · subst h
        simp [readingsOf]
      · rw [show readingsOf ((n, rs ++ [(⟨t, k⟩ : MeterReading)]) :: ms) b'
            = if n = b' then rs ++ [(⟨t, k⟩ : MeterReading)] else readingsOf ms b'
            from rfl]
        rw [show readingsOf ((n, rs) :: ms) b'
            = if n = b' then rs else readingsOf ms b' from rfl]
        rw [if_neg (fun hh : n = b' => h hh.symm),
          if_neg (fun hh : n = b' => h hh.symm), if_neg h]
    · rw [show addReadingA ((n, rs) :: ms) b t k
          = (n, rs) :: addReadingA ms b t k from by simp [addReadingA, hn]]
      rw [show readingsOf ((n, rs) :: addReadingA ms b t k) b'
          = if n = b' then rs else readingsOf (addReadingA ms b t k) b'
          from rfl]
      rw [show readingsOf ((n, rs) :: ms) b'
          = if n = b' then rs else readingsOf ms b' from rfl]
      by_cases h : n = b'
      · subst h
        rw [if_pos rfl, if_pos rfl, if_neg (fun hh : n = b => hn hh)]
      · rw [if_neg h, if_neg h, ih]

theorem readingsOf_managerOf_fold (b : String) :
    ∀ (ds : List Reading) (m : List (String × List MeterReading)),
      readingsOf
          (ds.foldl (fun m r => addReadingA m r.building r.timestamp r.kwh) m)
          b =
        readingsOf m b ++
          (ds.filter (fun r => r.building == b)).map
            (fun r => (⟨r.timestamp, r.kwh⟩ : MeterReading)) := by
  intro ds
  induction ds with
  | nil => intro m; simp
  | cons r rs ih =>
    intro m
    rw [List.foldl_cons, ih, readingsOf_addReadingA, List.filter_cons]
    by_cases h : b = r.building
    · rw [if_pos h, if_pos (beq_iff_eq.mpr h.symm), List.map_cons,
        List.append_assoc, List.singleton_append]
    · rw [if_neg h,
        if_neg (by
          simp only [beq_iff_eq]
          exact fun hh => h hh.symm)]

theorem managerTotal_eq (ds : List Reading) (b : String) :
    managerTotal (managerOf ds) b = (kwhsOf ds b).sum := by
  rw [managerTotal, managerOf, readingsOf_managerOf_fold]
  rw [show readingsOf [] b = [] from rfl, List.nil_append]
  rw [total_consumption, kwhsOf, List.map_map]
  rfl

/-! Helper lemmas about merged sums. -/

theorem sumKwhOpt_append {a b : List Row} {s1 s2 : Rat}
    (h1 : sumKwhOpt a = some s1) (h2 : sumKwhOpt b = some s2) :
    sumKwhOpt (a ++ b) = some (s1 + s2) := by
  induction a generalizing s1 with
  | nil =>
    rw [show sumKwhOpt [] = some 0 from rfl] at h1
    have : s1 = 0 := (Option.some_inj.mp h1).symm
    subst this
    rw [List.nil_append, h2, zero_add]
  | cons e es ih =>
    cases hk : e.kwh with
    | num q =>
      cases hs : sumKwhOpt es with
      | some s' =>
        rw [show sumKwhOpt (e :: es)
            = match e.kwh, sumKwhOpt es with
              | CsvVal.num q, some s => some (q + s)
              | _, _ => none from rfl, hk, hs] at h1
        have hs1 : q + s' = s1 := Option.some_inj.mp h1
        rw [List.cons_append,
          show sumKwhOpt (e :: (es ++ b))
            = match e.kwh, sumKwhOpt (es ++ b) with
              | CsvVal.num q, some s => some (q + s)
              | _, _ => none from rfl, hk, ih hs]
        rw [← hs1, add_assoc]
      | none =>
        rw [show sumKwhOpt (e :: es)
            = match e.kwh, sumKwhOpt es with
              | CsvVal.num q, some s => some (q + s)
              | _, _ => none from rfl, hk, hs] at h1
        cases h1
    | na =>
      rw [show sumKwhOpt (e :: es)
          = match e.kwh, sumKwhOpt es with
            | CsvVal.num q, some s => some (q + s)
            | _, _ => none from rfl, hk] at h1
      cases sumKwhOpt es <;> cases h1
    | str v =>
      rw [show sumKwhOpt (e :: es)
          = match e.kwh, sumKwhOpt es with
            | CsvVal.num q, some s => some (q + s)
            | _, _ => none from rfl, hk] at h1
      cases sumKwhOpt es <;> cases h1

/-! The claims. -/

/-- C1 (counterexample): contrary to the claim that `dailyTotals` and
`weeklyTotals` return only buckets containing at least one reading, pandas
`resample(...).sum()` materialises every bucket of the covered range: on a
dataset with readings on day 0 and day 2 only, day 1 appears in the output
as a synthesized zero-valued entry although no reading falls on day 1, and
likewise for an empty week between two occupied weeks. -/
theorem resample_zero_bucket_cex :
    ((1, (0 : Rat)) ∈ calculate_daily_totals exGapDs ∧
      ∀ r ∈ exGapDs, dayIndex r.timestamp ≠ 1) ∧
    ((1, (0 : Rat)) ∈ calculate_weekly_aggregates exGapDsW ∧
      ∀ r ∈ exGapDsW, weekIndex r.timestamp ≠ 1) := by
  have hd0 : dayIndex 0 = 0 := by decide
  have hd2 : dayIndex 172800 = 2 := by decide
  have hw0 : weekIndex 0 = 0 := by decide
  have hw2 : weekIndex 1296000 = 2 := by decide
  have h3 : ((3 : Int).toNat) = 3 := rfl
  refine ⟨⟨?_, ?_⟩, ?_, ?_⟩
  · have hout : calculate_daily_totals exGapDs = [(0, 1), (1, 0), (2, 2)] := by
      norm_num [calculate_daily_totals, resampleSumKwh, exGapDs, idxList,
        hd0, hd2, h3, listMinD, listMaxD, foldMin, foldMax, bucketSum,
        List.range_succ, List.range_zero, min_def, max_def]
    rw [hout]
    simp
  · decide
  · have hout : calculate_weekly_aggregates exGapDsW
        = [(0, 1), (1, 0), (2, 2)] := by
      norm_num [calculate_weekly_aggregates, resampleSumKwh, exGapDsW,
        idxList, hw0, hw2, h3, listMinD, listMaxD, foldMin, foldMax,
        bucketSum, List.range_succ, List.range_zero, min_def, max_def]
    rw [hout]
    simp
  · decide

/-- C1 (amended): for every nonempty dataset, `calculate_daily_totals` and
`calculate_weekly_aggregates` return one bucket for every calendar day
(resp. week) from the earliest reading's bucket to the latest, in strictly
increasing order; each bucket carries the kwh sum of its readings, every
reading lands inside the covered range, and buckets with zero rows also
appear (with sum 0): pandas resampling gap-fills rather than omitting empty
periods. -/
theorem resample_gap_filled (ds : List Reading) (h : ds ≠ []) :
    ResampleOk dayIndex (calculate_daily_totals ds) ds ∧
    ResampleOk weekIndex (calculate_weekly_aggregates ds) ds :=
  ⟨resampleSumKwh_ok dayIndex ds h, resampleSumKwh_ok weekIndex ds h⟩

/-- Witness for C1 (amended) at the concrete two-day dataset. -/
theorem resample_gap_filled_witness :
    exGapDs ≠ [] ∧
    (ResampleOk dayIndex (calculate_daily_totals exGapDs) exGapDs ∧
      ResampleOk weekIndex (calculate_weekly_aggregates exGapDs) exGapDs) :=
  ⟨by simp [exGapDs], resample_gap_filled exGapDs (by simp [exGapDs])⟩

/-- C2 (counterexample): contrary to the claim that a row whose numeric kwh
cell fails to coerce is dropped, a schema-valid file whose single row has a
parsed timestamp and the non-numeric kwh string "abc" keeps that row: the
string cell is not null, so `dropna` retains it, and the fragment contains
the row verbatim (with no diagnostic line). -/
theorem nonnumeric_kwh_not_dropped_cex :
    (loadFile exFileC2).1 = some [⟨5, CsvVal.str "abc", "meters"⟩] ∧
    (⟨5, CsvVal.str "abc", "meters"⟩ : Row) ∈ fileFragment exFileC2 ∧
    (loadFile exFileC2).2 = [] := by
  refine ⟨rfl, ?_, rfl⟩
  decide

/-- C2 (amended): for every readable file passing schema validation, a row
whose timestamp cell fails to coerce, or whose kwh cell is null, is dropped
from the file's fragment with no diagnostic line while the file itself stays
included; but a non-null kwh cell that fails numeric coercion (a string) is
retained, not dropped — only NaT timestamps and null kwh drop rows. -/
theorem row_coercion_drop_amended (f : CsvFile) (hre : f.readErr = none)
    (hts : f.hasTimestamp = true) (hk : f.hasKwh = true) : RowDropOk f := by
  refine ⟨?_, ?_, ?_, ?_, ?_⟩
  · rw [loadFile_of_valid hre hts hk]
  · rw [loadFile_of_valid hre hts hk]
  · intro r hr hbad
    show (f.rows.erase r).filterMap (tagRow f.stem)
      = f.rows.filterMap (tagRow f.stem)
    exact filterMap_erase_none (tagRow_eq_none hbad) f.rows
  · intro e he
    rcases mem_fileFragment.mp he with ⟨r, hr, htag⟩
    obtain ⟨h1, h2, h3, h4⟩ := tagRow_eq_some.mp htag
    refine ⟨?_, h3⟩
    rw [← h2]
    exact h4
  · intro r hr t ht hk'
    exact mem_fileFragment_of_valid hr ht hk'

/-- Witness for C2 (amended) at a concrete file holding a NaT-timestamp
row, an NA-kwh row and a valid row. -/
theorem row_coercion_drop_amended_witness : RowDropOk wFileC2 :=
  row_coercion_drop_amended wFileC2 rfl rfl rfl

/-- C3: in a directory of readable files with distinct names, every file
missing a required column contributes no row to the merged dataset (no
merged row carries its building tag) and the diagnostic log contains the
line naming that file, `"<filename>: Missing required columns."`, exactly
once. -/
theorem missing_columns_skip_and_log (files : List CsvFile) (f : CsvFile)
    (hf : f ∈ files) (hnodup : (files.map CsvFile.stem).Nodup)
    (hre : ∀ g ∈ files, g.readErr = none)
    (hmiss : f.hasTimestamp = false ∨ f.hasKwh = false) :
    MissingColumnsOk files f := by
  have hinj : ∀ g ∈ files, g.stem = f.stem → g = f := by
    intro g hg hst
    exact List.inj_on_of_nodup_map hnodup hg hf hst
  have hmiss' : ¬(f.hasTimestamp = true ∧ f.hasKwh = true) := by
    rcases hmiss with h | h <;> intro hc
    · rw [hc.1] at h; cases h
    · rw [hc.2] at h; cases h
  constructor
  · intro e he
    rcases mem_merged_elim he with ⟨g, hg, frag, hgl, hef⟩
    obtain ⟨hfrag, hts, hk, _⟩ := loadFile_some hgl
    intro hst
    have hb : e.building = g.stem := fileFragment_building (hfrag ▸ hef)
    have hgf : g = f := hinj g hg (by rw [← hb, hst])
    subst hgf
    exact hmiss' ⟨hts, hk⟩
  · have hnd : files.Nodup := List.Nodup.of_map _ hnodup
    have hcount1 : files.count f = 1 := List.count_eq_one_of_mem hnd hf
    have hlogs : (load_and_merge_data files).2 = logsOf files := rfl
    rw [hlogs, count_logsOf]
    apply sum_map_eq_one _ f files hf
    · rw [loadFile_missing_cols (hre f hf) hmiss']
      simp
    · intro g hg hgf
      rcases loadFile_logs_of_noerr (hre g hg) with h | ⟨h, _⟩
      · rw [h]
        rfl
      · rw [h]
        have hne : missingColsMsg g ≠ missingColsMsg f := by
          intro he
          exact hgf (hinj g hg (missingColsMsg_inj he))
        simp [List.count_cons, hne]
    · exact hcount1

/-- Witness for C3 at a directory holding one well-formed file and one file
missing its kwh column. -/
theorem missing_columns_skip_and_log_witness :
    MissingColumnsOk [wFileC3ok, wFileC3bad] wFileC3bad :=
  missing_columns_skip_and_log [wFileC3ok, wFileC3bad] wFileC3bad
    (by decide) (by decide) (by decide) (by decide)

/-- C4: when no file yields a frame, `load_and_merge_data` returns the
explicit empty dataset (rather than raising), and `__main__` prints the
fixed "No valid CSV data found." message and terminates through `exit()`
with status 0 before any aggregation function is invoked. -/
theorem empty_fragments_graceful (files : List CsvFile)
    (h : framesOf files = []) : EmptyDataOk files := by
  have h1 : (load_and_merge_data files).1 = [] := by
    simp [load_and_merge_data, h]
  refine ⟨h1, ?_⟩
  simp [runPipeline, h1]

/-- Witness for C4 at a directory holding a single column-free file. -/
theorem empty_fragments_graceful_witness : EmptyDataOk [wFileC4] :=
  empty_fragments_graceful [wFileC4] (by decide)

/-- C7: a row whose kwh cell is present and numeric with value exactly 0
(and whose timestamp parses) is retained in the merged dataset: only
nullness drops a row, never the value 0. -/
theorem zero_kwh_retained (files : List CsvFile) (f : CsvFile) (hf : f ∈ files)
    (hre : f.readErr = none) (hts : f.hasTimestamp = true)
    (hk : f.hasKwh = true) (r : RawRow) (hr : r ∈ f.rows) (t : Int)
    (hrt : r.timestamp = some t) (hk0 : r.kwh = CsvVal.num 0) :
    (⟨t, CsvVal.num 0, f.stem⟩ : Row) ∈ (load_and_merge_data files).1 := by
  have hkne : r.kwh ≠ CsvVal.na := by
    rw [hk0]
    intro hh
    cases hh
  have hmem : (⟨t, r.kwh, f.stem⟩ : Row) ∈ fileFragment f :=
    mem_fileFragment_of_valid hr hrt hkne
  rw [hk0] at hmem
  exact mem_merged hf (by rw [loadFile_of_valid hre hts hk]) hmem

/-- Witness for C7 at a file whose single row has kwh 0. -/
theorem zero_kwh_retained_witness :
    (⟨9, CsvVal.num 0, "hall"⟩ : Row) ∈ (load_and_merge_data [wFileC7]).1 :=
  zero_kwh_retained [wFileC7] wFileC7 (by decide) rfl rfl rfl
    ⟨some 9, CsvVal.num 0⟩ (by decide) 9 rfl rfl

/-- C8: in a readable, schema-valid file, a row whose timestamp fails to
parse is absent from the resulting dataset — erasing it leaves the file's
fragment unchanged, and every surviving entry stems from a row whose
timestamp did parse — while no diagnostic line is produced and the file's
other rows are unaffected (the file is still included). -/
theorem bad_timestamp_dropped_silently (f : CsvFile) (hre : f.readErr = none)
    (hts : f.hasTimestamp = true) (hk : f.hasKwh = true) (r : RawRow)
    (_hr : r ∈ f.rows) (hbad : r.timestamp = none) : SilentDropOk f r := by
  refine ⟨?_, ?_, ?_, ?_⟩
  · rw [loadFile_of_valid hre hts hk]
  · show (f.rows.erase r).filterMap (tagRow f.stem)
      = f.rows.filterMap (tagRow f.stem)
    exact filterMap_erase_none (tagRow_eq_none (Or.inl hbad)) f.rows
  · rw [loadFile_of_valid hre hts hk]
  · intro e he
    rcases mem_fileFragment.mp he with ⟨q, hq, htag⟩
    obtain ⟨h1, h2, _, _⟩ := tagRow_eq_some.mp htag
    exact ⟨q, hq, h1, h2⟩

/-- Witness for C8 at a file holding one NaT-timestamp row and one valid
row. -/
theorem bad_timestamp_dropped_silently_witness :
    SilentDropOk wFileC8 ⟨none, CsvVal.num 4⟩ :=
  bad_timestamp_dropped_silently wFileC8 rfl rfl rfl ⟨none, CsvVal.num 4⟩
    (by decide) rfl

/-- C10: for two distinct well-formed files whose fragments are nonempty
and numeric, the kwh sum over the merged dataset equals the sum of the two
fragments' own totals (concatenation preserves and adds the totals). -/
theorem merge_sum_additive (f g : CsvFile) (_hfg : f.stem ≠ g.stem)
    (d1 d2 : List Row) (h1 : (loadFile f).1 = some d1)
    (h2 : (loadFile g).1 = some d2) (_hne1 : d1 ≠ []) (_hne2 : d2 ≠ [])
    (s1 s2 : Rat) (hs1 : sumKwhOpt d1 = some s1)
    (hs2 : sumKwhOpt d2 = some s2) :
    sumKwhOpt (load_and_merge_data [f, g]).1 = some (s1 + s2) := by
  have hframes : framesOf [f, g] = [d1, d2] := by
    simp [framesOf, h1, h2]
  have hmerge : (load_and_merge_data [f, g]).1 = d1 ++ d2 := by
    rw [load_merge_fst, hframes]
    simp
  rw [hmerge]
  exact sumKwhOpt_append hs1 hs2

/-- Witness for C10 at two concrete single-row files with kwh 3 and 4. -/
theorem merge_sum_additive_witness :
    sumKwhOpt (load_and_merge_data [wFileC10a, wFileC10b]).1
      = some (3 + 4) :=
  merge_sum_additive wFileC10a wFileC10b (by decide)
    [⟨1, CsvVal.num 3, "ca"⟩] [⟨2, CsvVal.num 4, "cb"⟩] rfl rfl
    (by decide) (by decide) 3 4 (by simp [sumKwhOpt]) (by simp [sumKwhOpt])

/-- C5: for every nonempty dataset, `peakReading` (the model of
`df.loc[df["kwh"].idxmax()]`) returns a reading of the dataset whose kwh
bounds every reading's kwh, and every reading occurring before it in
dataset order has strictly smaller kwh — a stable argmax, first occurrence
winning ties. -/
theorem peakReading_stable_argmax (ds : List Reading) (h : ds ≠ []) :
    StableArgmax ds := by
  cases ds with
  | nil => cases h rfl
  | cons r rs =>
    obtain ⟨h1, h2, h3⟩ := peakAux_spec rs r
    refine ⟨peakAux r rs, rfl, ?_, ?_⟩
    · intro z hz
      rcases List.mem_cons.mp hz with h' | h'
      · rw [h']
        exact h2
      · exact h1 z h'
    · rcases h3 with he | ⟨pre, post, hsplit, hbl, hpre⟩
      · exact ⟨[], rs, by rw [he, List.nil_append], by simp⟩
      · refine ⟨r :: pre, post, ?_, ?_⟩
        · rw [List.cons_append, ← hsplit]
        · intro z hz
          rcases List.mem_cons.mp hz with h' | h'
          · rw [h']
            exact hbl
          · exact hpre z h'

/-- Witness for C5 at the spec's tied example `[{t1,5},{t2,9},{t3,9}]`:
the reading at `t2 = 2` (the first of the two tied at the maximum 9) is
returned. -/
theorem peakReading_stable_argmax_witness :
    peakReading exPeakDs = some ⟨2, 9, "A"⟩ ∧ StableArgmax exPeakDs :=
  ⟨by norm_num [peakReading, peakAux, exPeakDs],
    peakReading_stable_argmax exPeakDs (by simp [exPeakDs])⟩

/-- C6: for every nonempty dataset, `building_wise_summary` has exactly one
row per distinct observed building, carrying that building's kwh mean
(sum over count), an attained minimum, an attained maximum and sum, and no
row for an unobserved building. -/
theorem building_wise_summary_groups (ds : List Reading) (_h : ds ≠ []) :
    SummaryOk ds := by
  constructor
  · intro b hb
    have hbkeys : b ∈ sortedKeys (ds.map (fun r => r.building)) :=
      (mem_sortedKeys _).mpr hb
    have hkne : kwhsOf ds b ≠ [] := by
      rcases List.mem_map.mp hb with ⟨r, hr, hrb⟩
      have hin : r.kwh ∈ kwhsOf ds b := by
        rw [kwhsOf]
        exact List.mem_map.mpr
          ⟨r, List.mem_filter.mpr ⟨hr, by simp [hrb]⟩, rfl⟩
      intro hnil
      rw [hnil] at hin
      cases hin
    constructor
    · rw [building_wise_summary, List.countP_map]
      show List.count b (sortedKeys (ds.map (fun r => r.building))) = 1
      exact List.count_eq_one_of_mem (nodup_sortedKeys _) hbkeys
    · refine ⟨⟨b, (kwhsOf ds b).sum / ((kwhsOf ds b).length : Rat),
        listMinD 0 (kwhsOf ds b), listMaxD 0 (kwhsOf ds b),
        (kwhsOf ds b).sum⟩, ?_, rfl, rfl, ?_, ?_, ?_, ?_, rfl⟩
      · rw [building_wise_summary]
        exact List.mem_map.mpr ⟨b, hbkeys, rfl⟩
      · exact listMinD_mem hkne
      · exact listMinD_le hkne
      · exact listMaxD_mem hkne
      · exact le_listMaxD hkne
  · intro row hrow
    rw [building_wise_summary] at hrow
    rcases List.mem_map.mp hrow with ⟨k, hk, hFk⟩
    have hbk : row.building = k := by rw [← hFk]
    rw [hbk]
    exact (mem_sortedKeys _).mp hk

/-- Witness for C6 at the spec's example (buildings A = {10, 20} and
B = {5}): the summary is A: mean 15, min 10, max 20, total 30 and
B: mean 5, min 5, max 5, total 5. -/
theorem building_wise_summary_groups_witness :
    building_wise_summary exABDs =
      [⟨"A", 15, 10, 20, 30⟩, ⟨"B", 5, 5, 5, 5⟩] ∧ SummaryOk exABDs := by
  constructor
  · have hab : strLt "A" "B" = true := by decide
    have hba : (("B" : String) == "A") = false := by decide
    have haa : (("A" : String) == "A") = true := by decide
    have hbb : (("B" : String) == "B") = true := by decide
    have hab2 : (("A" : String) == "B") = false := by decide
    have hne : ("A" : String) ≠ "B" := by decide
    have hne2 : ("B" : String) ≠ "A" := by decide
    norm_num [building_wise_summary, exABDs, sortedKeys, insertKey, hab,
      hba, haa, hbb, hab2, hne, hne2, kwhsOf, listMinD, listMaxD, foldMin,
      foldMax, min_def, max_def]
  · exact building_wise_summary_groups exABDs (by simp [exABDs])

/-- C9: for every dataset, the per-building total computed by the object
graph (`BuildingManager` fed every reading, each `Building` summing its
meter readings' kwh) agrees with the `total` column of the corresponding
`building_wise_summary` row: the two paths re-derive the same per-building
totals. -/
theorem object_graph_matches_summary (ds : List Reading) (row : BSummary)
    (hrow : row ∈ building_wise_summary ds) :
    managerTotal (managerOf ds) row.building = row.total := by
  rw [building_wise_summary] at hrow
  rcases List.mem_map.mp hrow with ⟨k, hk, hFk⟩
  rw [managerTotal_eq, ← hFk]

/-- Witness for C9 at a concrete two-reading dataset for building
"labs". -/
theorem object_graph_matches_summary_witness :
    managerTotal (managerOf exDsC9)
        (⟨"labs", 7 / 2, 3, 4, 7⟩ : BSummary).building
      = (⟨"labs", 7 / 2, 3, 4, 7⟩ : BSummary).total :=
  object_graph_matches_summary exDsC9 ⟨"labs", 7 / 2, 3, 4, 7⟩
    (by norm_num [building_wise_summary, exDsC9, sortedKeys, insertKey,
      kwhsOf, listMinD, listMaxD, foldMin, foldMax, min_def, max_def])

end CampusEnergy
